import Mathlib

/-!
Verification development for the spectral model engine of
yt/analysis_modules/photon_simulator/spectral_models.py.

The Python source is shallowly embedded below: numpy float arrays are
modelled as lists of rationals, numpy routines (linspace, diff,
searchsorted, interp) are translated directly, and the FITS or HDF5
table files opened by the code are passed in as explicit values (the
file layer itself is an external collaborator).  The scipy Gaussian
cumulative-distribution routine used by the thermal-broadening branch
involves square roots and the normal cdf, which have no exact rational
form; it is kept as an abstract per-channel kernel parameter, exactly
as an external numerical library call.
-/

/-- Planck constant times speed of light in keV*angstrom, the value the
source computes once at module load from physical constants
(hc = (hcgs*clight).in_units("keV*angstrom").v, about 12.398419). -/
def hc : ℚ := 12398419 / 1000000

/-- np.zeros(n). -/
def zerosQ (n : ℕ) : List ℚ := List.replicate n 0

/-- Elementwise sum of two numpy arrays (a + b). -/
def zipAdd (a b : List ℚ) : List ℚ := List.zipWith (· + ·) a b

/-- Elementwise product of two numpy arrays (a * b). -/
def zipMul (a b : List ℚ) : List ℚ := List.zipWith (· * ·) a b

/-- np.linspace(a, b, n+1): n+1 evenly spaced points from a to b. -/
def linspace (a b : ℚ) (n : ℕ) : List ℚ :=
  (List.range (n + 1)).map (fun i : ℕ => a + (b - a) * (i : ℚ) / n)

/-- np.diff(xs): consecutive differences, length one less than xs. -/
def npdiff (xs : List ℚ) : List ℚ :=
  (List.range (xs.length - 1)).map (fun i => xs.getD (i + 1) 0 - xs.getD i 0)

/-- 0.5*(xs[1:] + xs[:-1]): midpoints of consecutive entries. -/
def npmid (xs : List ℚ) : List ℚ :=
  (List.range (xs.length - 1)).map (fun i => 0.5 * (xs.getD (i + 1) 0 + xs.getD i 0))

/-- ndarray.min() on a nonempty array (0 on the empty array, where numpy
would raise). -/
def listMin : List ℚ → ℚ
  | [] => 0
  | x :: xs => xs.foldl min x

/-- ndarray.max() on a nonempty array (0 on the empty array, where numpy
would raise). -/
def listMax : List ℚ → ℚ
  | [] => 0
  | x :: xs => xs.foldl max x

/-- np.searchsorted(xs, v) with the default side=left on a sorted array:
the number of entries strictly below v. -/
def ssLeft (xs : List ℚ) (v : ℚ) : ℕ := xs.countP (fun x => decide (x < v))

/-- np.searchsorted(xs, v, side=right) on a sorted array: the number of
entries at or below v. -/
def ssRight (xs : List ℚ) (v : ℚ) : ℕ := xs.countP (fun x => decide (x ≤ v))

/-- Add a to the entry of v at nonnegative position n (v[n] += a). -/
def bump : List ℚ → ℕ → ℚ → List ℚ
  | [], _, _ => []
  | x :: xs, 0, a => (x + a) :: xs
  | x :: xs, n + 1, a => x :: bump xs n a

/-- Python indexed in-place addition vec[i] += a for a possibly negative
index i: a negative index counts from the end of the list.  An index out
of bounds after that adjustment leaves the list unchanged (Python would
raise IndexError there; no reachable call site produces one). -/
def pyBump (v : List ℚ) (i : ℤ) (a : ℚ) : List ℚ :=
  let j : ℤ := if i < 0 then i + v.length else i
  if 0 ≤ j ∧ j < v.length then bump v j.toNat a else v

/-- Piecewise-linear interpolation through the listed (x, f) knots with
numpy boundary behaviour: clamped to the first value below the first
knot and to the last value above the last knot. -/
def interpPts : List (ℚ × ℚ) → ℚ → ℚ
  | [], _ => 0
  | [(_, f0)], _ => f0
  | (x0, f0) :: (x1, f1) :: rest, x =>
    if x ≤ x0 then f0
    else if x ≤ x1 then f0 + (f1 - f0) * (x - x0) / (x1 - x0)
    else interpPts ((x1, f1) :: rest) x

/-- np.interp(x, xp, fp). -/
def npinterp (x : ℚ) (xp fp : List ℚ) : ℚ := interpPts (xp.zip fp) x

/-- One row of a line-table block: fields element, lambda, epsilon. -/
structure LineEntry where
  element : ℕ
  lam : ℚ
  epsilon : ℚ
deriving DecidableEq, Inhabited

/-- The APEC line table file: block 1 carries the temperature grid
(column kT); the indexed data blocks carry the line rows. -/
structure LineFile where
  kT : List ℚ
  blocks : ℕ → List LineEntry
deriving Inhabited

/-- One row of a continuum-table block: fields Z, rmJ, N_Cont, E_Cont,
Continuum, N_Pseudo, E_Pseudo, Pseudo. -/
structure CocoEntry where
  Z : ℕ
  rmJ : ℕ
  nCont : ℕ
  eCont : List ℚ
  continuum : List ℚ
  nPseudo : ℕ
  ePseudo : List ℚ
  pseudo : List ℚ
deriving DecidableEq, Inhabited

/-- The APEC continuum (coco) table file. -/
structure CocoFile where
  blocks : ℕ → List CocoEntry
deriving Inhabited

/-- The fields set by SpectralModel.__init__(emin, emax, nchan). -/
structure SpecGrid where
  emin : ℚ
  emax : ℚ
  nchan : ℕ
  ebins : List ℚ
  de : List ℚ
  emid : List ℚ
deriving DecidableEq, Inhabited

/-- SpectralModel.__init__: stores the bounds and builds the linear
energy grid.  The source performs no validation of the arguments. -/
def SpectralModel.init (emin emax : ℚ) (nchan : ℕ) : SpecGrid :=
  { emin := emin
    emax := emax
    nchan := nchan
    ebins := linspace emin emax nchan
    de := npdiff (linspace emin emax nchan)
    emid := npmid (linspace emin emax nchan) }

/-- The fields set by TableApecModel.__init__ (before prepare_spectrum
runs): the grid fields of the base class plus the wavelength grid, the
element partition, the broadening flag, the atomic weights and the two
table file paths. -/
structure ApecModel where
  apec_root : String
  linefile : String
  cocofile : String
  emin : ℚ
  emax : ℚ
  nchan : ℕ
  ebins : List ℚ
  de : List ℚ
  emid : List ℚ
  wvbins : List ℚ
  cosmic_elem : List ℕ
  metal_elem : List ℕ
  thermal_broad : Bool
  A : List ℚ
deriving Inhabited

/-- TableApecModel.__init__(apec_root, emin, emax, nchan, apec_vers,
thermal_broad). -/
def TableApecModel.init (apec_root apec_vers : String) (emin emax : ℚ)
    (nchan : ℕ) (thermal_broad : Bool) : ApecModel :=
  let g := SpectralModel.init emin emax nchan
  { apec_root := apec_root
    linefile := apec_root ++ "/apec_v" ++ apec_vers ++ "_line.fits"
    cocofile := apec_root ++ "/apec_v" ++ apec_vers ++ "_coco.fits"
    emin := g.emin
    emax := g.emax
    nchan := g.nchan
    ebins := g.ebins
    de := g.de
    emid := g.emid
    wvbins := g.ebins.reverse.map (fun e => hc / e)
    cosmic_elem := [1, 2, 3, 4, 5, 9, 11, 15, 17, 19, 21, 22, 23, 24, 25, 27, 29, 30]
    metal_elem := [6, 7, 8, 10, 12, 13, 14, 16, 18, 20, 26, 28]
    thermal_broad := thermal_broad
    A := [0.0, 1.00794, 4.00262, 6.941, 9.012182, 10.811,
          12.0107, 14.0067, 15.9994, 18.9984, 20.1797,
          22.9898, 24.3050, 26.9815, 28.0855, 30.9738,
          32.0650, 35.4530, 39.9480, 39.0983, 40.0780,
          44.9559, 47.8670, 50.9415, 51.9961, 54.9380,
          55.8450, 58.9332, 58.6934, 63.5460, 65.3800] }

/-- The additional fields set by a successful TableApecModel
.prepare_spectrum(zobs): the open table handles, the temperature grid
read from block 1 of the line file, the wavelength bounds and the
cosmological scale factor. -/
structure PreparedApec extends ApecModel where
  lineBlocks : ℕ → List LineEntry
  cocoBlocks : ℕ → List CocoEntry
  Tvals : List ℚ
  dTvals : List ℚ
  minlam : ℚ
  maxlam : ℚ
  scale_factor : ℚ
deriving Inhabited

/-- The state built by the success path of prepare_spectrum. -/
def TableApecModel.prepared (m : ApecModel) (lf : LineFile) (cf : CocoFile)
    (zobs : ℚ) : PreparedApec :=
  { m with
    lineBlocks := lf.blocks
    cocoBlocks := cf.blocks
    Tvals := lf.kT
    dTvals := npdiff lf.kT
    minlam := listMin m.wvbins
    maxlam := listMax m.wvbins
    scale_factor := 1 / (1 + zobs) }

/-- The mutable attributes prepare_spectrum assigns on the model object
(absent right after __init__, hence optional): the two table handles,
the temperature grid and its differences, the wavelength bounds and the
cosmological scale factor. -/
structure ApecAttrs where
  line_handle : Option LineFile
  coco_handle : Option CocoFile
  Tvals : Option (List ℚ)
  dTvals : Option (List ℚ)
  minlam : Option ℚ
  maxlam : Option ℚ
  scale_factor : Option ℚ
deriving Inhabited

/-- The attribute state of a TableApecModel right after __init__:
nothing prepare-related has been assigned yet. -/
def TableApecModel.unpreparedAttrs : ApecAttrs :=
  { line_handle := none
    coco_handle := none
    Tvals := none
    dTvals := none
    minlam := none
    maxlam := none
    scale_factor := none }

/-- TableApecModel.prepare_spectrum(zobs) as a mutation of the object's
attribute state.  Opening a table file is external I/O, so the two
files are passed as optional values (none models a missing file, for
which the source raises IOError).  The source assigns
self.line_handle as soon as the line file opens, so when the line file
is present but the continuum file is missing, the IOError is raised
with the line handle already set on the object: the error branches
return the attribute state as mutated up to the raise. -/
def TableApecModel.prepare_spectrum (m : ApecModel) (s : ApecAttrs)
    (lff : Option LineFile) (cff : Option CocoFile) (zobs : ℚ) :
    ApecAttrs × Except String Unit :=
  match lff with
  | none => (s, .error ("LINE file " ++ m.linefile ++ " does not exist"))
  | some lf =>
    let s1 := { s with line_handle := some lf }
    match cff with
    | none => (s1, .error ("COCO file " ++ m.cocofile ++ " does not exist"))
    | some cf =>
      ({ s1 with
          coco_handle := some cf
          Tvals := some lf.kT
          dTvals := some (npdiff lf.kT)
          minlam := some (listMin m.wvbins)
          maxlam := some (listMax m.wvbins)
          scale_factor := some (1 / (1 + zobs)) }, .ok ())

/-- The type of the abstract external Gaussian line-profile kernel:
given the observed line energy, the tabulated temperature used for the
Doppler width, the element and a channel index, it returns the fraction
of the Gaussian profile falling in that channel
(np.diff(scipy.stats.norm(E0, sigma).cdf(ebins)) in the source, with
sigma computed from the temperature and atomic weight;
not rationally representable, hence abstract). -/
abbrev GaussKernel := ℚ → ℚ → ℕ → ℕ → ℚ

/-- The line selection of _make_spectrum: the rows of the given table
block for the given element whose rest wavelength lies strictly between
minlam and maxlam. -/
def lineSelect (p : PreparedApec) (element tindex : ℕ) : List LineEntry :=
  (p.lineBlocks tindex).filter
    (fun l => decide (l.element = element) && decide (p.minlam < l.lam)
      && decide (l.lam < p.maxlam))

/-- Observed-frame energy of a line: E0 = hc/lambda * scale_factor. -/
def lineE0 (p : PreparedApec) (l : LineEntry) : ℚ := hc / l.lam * p.scale_factor

/-- The unbroadened line deposition loop of _make_spectrum: each
selected line adds its amplitude at index
np.searchsorted(ebins, E0, side=right) - 1, with Python indexing. -/
def depositLines (p : PreparedApec) (element tindex : ℕ) : List ℚ :=
  (lineSelect p element tindex).foldl
    (fun v l => pyBump v ((ssRight p.ebins (lineE0 p l) : ℤ) - 1) l.epsilon)
    (zerosQ p.nchan)

/-- The thermally broadened line loop of _make_spectrum: each selected
line adds its amplitude times the abstract Gaussian profile fraction in
every channel.  Note the source reads the Doppler temperature as
Tvals[tindex] with tindex the table block index. -/
def broadLines (p : PreparedApec) (gk : GaussKernel) (element tindex : ℕ) : List ℚ :=
  (lineSelect p element tindex).foldl
    (fun v l => zipAdd v ((List.range p.nchan).map
      (fun j => l.epsilon * gk (lineE0 p l) (p.Tvals.getD tindex 0) element j)))
    (zerosQ p.nchan)

/-- The per-line part of _make_spectrum, switching on thermal_broad. -/
def lineVec (p : PreparedApec) (gk : GaussKernel) (element tindex : ℕ) : List ℚ :=
  if p.thermal_broad then broadLines p gk element tindex
  else depositLines p element tindex

/-- TableApecModel._make_spectrum(element, tindex): line deposition,
then, when the element has a continuum record with rmJ == 0 in the
block, interpolated continuum and pseudo-continuum contributions scaled
by the bin widths. -/
def TableApecModel.make_spectrum (p : PreparedApec) (gk : GaussKernel)
    (element tindex : ℕ) : List ℚ :=
  let tmpspec := zipAdd (zerosQ p.nchan) (lineVec p gk element tindex)
  match (p.cocoBlocks tindex).find?
      (fun r => decide (r.Z = element) && decide (r.rmJ = 0)) with
  | none => tmpspec
  | some r =>
    let e_cont := (r.eCont.take r.nCont).map (fun e => e * p.scale_factor)
    let cont := r.continuum.take r.nCont
    let t1 := zipAdd tmpspec
      (zipMul (p.emid.map (fun x => npinterp x e_cont cont)) p.de)
    let e_ps := (r.ePseudo.take r.nPseudo).map (fun e => e * p.scale_factor)
    let ps := r.pseudo.take r.nPseudo
    zipAdd t1 (zipMul (p.emid.map (fun x => npinterp x e_ps ps)) p.de)

/-- The accumulation loops of get_spectrum: sum of _make_spectrum over
an element list at one table block. -/
def sumSpec (p : PreparedApec) (gk : GaussKernel) (elems : List ℕ)
    (blk : ℕ) : List ℚ :=
  elems.foldl (fun acc e => zipAdd acc (TableApecModel.make_spectrum p gk e blk))
    (zerosQ p.nchan)

/-- The temperature lookup of get_spectrum:
tindex = np.searchsorted(Tvals, kT) - 1, as a signed integer. -/
def tindexOf (p : PreparedApec) (kT : ℚ) : ℤ := (ssLeft p.Tvals kT : ℤ) - 1

/-- The linear temperature blend of get_spectrum:
left*(1-dT) + right*dT. -/
def blend (l r : List ℚ) (dT : ℚ) : List ℚ :=
  List.zipWith (fun a b => a * (1 - dT) + b * dT) l r

/-- TableApecModel.get_spectrum(kT): zero spectra when tindex is out of
the tabulated range, otherwise the dT blend of the per-element sums at
the two bracketing table blocks tindex+2 and tindex+3. -/
def TableApecModel.get_spectrum (p : PreparedApec) (gk : GaussKernel)
    (kT : ℚ) : List ℚ × List ℚ :=
  let t := tindexOf p kT
  if t ≥ (p.Tvals.length : ℤ) - 1 ∨ t < 0 then
    (zerosQ p.nchan, zerosQ p.nchan)
  else
    let ti := t.toNat
    let dT := (kT - p.Tvals.getD ti 0) / p.dTvals.getD ti 0
    (blend (sumSpec p gk p.cosmic_elem (ti + 2))
           (sumSpec p gk p.cosmic_elem (ti + 3)) dT,
     blend (sumSpec p gk p.metal_elem (ti + 2))
           (sumSpec p gk p.metal_elem (ti + 3)) dT)

/-- get_spectrum as a state transformer: the method body of the source
assigns no attribute, so the post-state is the pre-state. -/
def TableApecModel.get_spectrum_st (p : PreparedApec) (gk : GaussKernel)
    (kT : ℚ) : PreparedApec × (List ℚ × List ℚ) :=
  (p, TableApecModel.get_spectrum p gk kT)

/-- The HDF5 absorption table: datasets energy and cross_section. -/
structure AbsTable where
  energy : List ℚ
  cross_section : List ℚ
deriving DecidableEq, Inhabited

/-- The fields set by TableAbsorbModel.__init__. -/
structure TableAbsorbModel where
  filename : String
  emin : ℚ
  emax : ℚ
  nchan : ℕ
  ebins : List ℚ
  de : List ℚ
  emid : List ℚ
  sigma : List ℚ
  nH : ℚ
deriving Inhabited

/-- TableAbsorbModel.__init__(filename, nH): raises IOError right away
when the file is missing (modelled by the table argument none),
otherwise reads the energy span and cross sections from the table,
builds the grid from them and stores the column density nH * 10^22. -/
def TableAbsorbModel.init (filename : String) (file : Option AbsTable)
    (nH : ℚ) : Except String TableAbsorbModel :=
  match file with
  | none => .error ("File does not exist: " ++ filename ++ ".")
  | some f =>
    let emin := listMin f.energy
    let emax := listMax f.energy
    let sigma := f.cross_section
    let nchan := sigma.length
    let g := SpectralModel.init emin emax nchan
    .ok { filename := filename
          emin := g.emin
          emax := g.emax
          nchan := g.nchan
          ebins := g.ebins
          de := g.de
          emid := g.emid
          sigma := sigma
          nH := nH * 10 ^ 22 }

/-- TableAbsorbModel.prepare_spectrum: a no-op in the source. -/
def TableAbsorbModel.prepare_spectrum (_m : TableAbsorbModel) : Unit := ()

/-- The exponent arguments -sigma*nH of the Beer-Lambert law; the
computable rational part of get_spectrum. -/
def TableAbsorbModel.expArgs (m : TableAbsorbModel) : List ℚ :=
  m.sigma.map (fun s => -(s * m.nH))

/-- TableAbsorbModel.get_spectrum(): np.exp(-sigma*nH) elementwise, the
Beer-Lambert transmission curve.  The exponential is the only
transcendental step, hence the only noncomputable one. -/
noncomputable def TableAbsorbModel.get_spectrum (m : TableAbsorbModel) : List ℝ :=
  (TableAbsorbModel.expArgs m).map (fun q : ℚ => Real.exp (q : ℝ))

/-! ## General list lemmas -/

lemma zerosQ_length (n : ℕ) : (zerosQ n).length = n := by
  simp [zerosQ]

lemma getD_range_map (f : ℕ → ℚ) {n i : ℕ} (h : i < n) :
    ((List.range n).map f).getD i 0 = f i := by
  rw [List.getD_eq_getElem _ _ (by simpa using h)]
  simp

lemma getD_mem (xs : List ℚ) (i : ℕ) (h : i < xs.length) : xs.getD i 0 ∈ xs := by
  rw [List.getD_eq_getElem _ _ h]
  exact List.getElem_mem h

lemma length_linspace (a b : ℚ) (n : ℕ) : (linspace a b n).length = n + 1 := by
  rw [linspace, List.length_map, List.length_range]

lemma getD_linspace (a b : ℚ) {n i : ℕ} (h : i ≤ n) :
    (linspace a b n).getD i 0 = a + (b - a) * i / n := by
  rw [linspace]
  exact getD_range_map _ (by omega)

lemma length_npdiff (xs : List ℚ) : (npdiff xs).length = xs.length - 1 := by
  simp [npdiff]

lemma getD_npdiff (xs : List ℚ) {i : ℕ} (h : i < xs.length - 1) :
    (npdiff xs).getD i 0 = xs.getD (i + 1) 0 - xs.getD i 0 :=
  getD_range_map _ h

lemma length_npmid (xs : List ℚ) : (npmid xs).length = xs.length - 1 := by
  simp [npmid]

lemma getD_npmid (xs : List ℚ) {i : ℕ} (h : i < xs.length - 1) :
    (npmid xs).getD i 0 = 0.5 * (xs.getD (i + 1) 0 + xs.getD i 0) :=
  getD_range_map _ h

/-! ## Sorted-list and searchsorted machinery -/

lemma pairwise_getD {R : ℚ → ℚ → Prop} :
    ∀ (xs : List ℚ), xs.Pairwise R → ∀ i j : ℕ, i < j → j < xs.length →
      R (xs.getD i 0) (xs.getD j 0) := by
  intro xs
  induction xs with
  | nil => intro _ i j _ hj; simp at hj
  | cons x t ih =>
    intro h i j hij hj
    rcases List.pairwise_cons.mp h with ⟨hx, ht⟩
    match i, j with
    | 0, j + 1 =>
      rw [List.getD_cons_zero, List.getD_cons_succ]
      exact hx _ (getD_mem t j (by simpa using hj))
    | i + 1, j + 1 =>
      rw [List.getD_cons_succ, List.getD_cons_succ]
      exact ih ht i j (by omega) (by simpa using hj)

lemma sorted_head_le (xs : List ℚ) (hs : xs.Pairwise (· ≤ ·)) :
    ∀ y ∈ xs, xs.getD 0 0 ≤ y := by
  cases xs with
  | nil => intro y hy; simp at hy
  | cons x t =>
    intro y hy
    rcases List.pairwise_cons.mp hs with ⟨hx, _⟩
    rcases List.mem_cons.mp hy with h | h
    · simp [h]
    · simpa using hx y h

lemma sorted_le_last (xs : List ℚ) (hs : xs.Pairwise (· ≤ ·)) :
    ∀ y ∈ xs, y ≤ xs.getD (xs.length - 1) 0 := by
  induction xs with
  | nil => intro y hy; simp at hy
  | cons x t ih =>
    intro y hy
    rcases List.pairwise_cons.mp hs with ⟨hx, ht⟩
    cases t with
    | nil =>
      rcases List.mem_cons.mp hy with h | h
      · simp [h]
      · simp at h
    | cons u s =>
      have hlen : (x :: u :: s : List ℚ).length - 1 = ((u :: s : List ℚ).length - 1) + 1 := by
        simp
      rw [hlen, List.getD_cons_succ]
      rcases List.mem_cons.mp hy with h | h
      · subst h
        exact le_trans (hx _ (getD_mem _ _ (by simp))) (le_refl _)
      · exact ih ht y h

lemma countP_prefix_char (q : ℚ → Bool) (hq : ∀ a b : ℚ, a ≤ b → q b = true → q a = true) :
    ∀ (xs : List ℚ), xs.Pairwise (· ≤ ·) →
      (∀ j, j < xs.countP q → q (xs.getD j 0) = true) ∧
      (∀ j, xs.countP q ≤ j → j < xs.length → q (xs.getD j 0) = false) := by
  intro xs
  induction xs with
  | nil => intro _; constructor <;> intro j h <;> simp_all
  | cons x t ih =>
    intro h
    rcases List.pairwise_cons.mp h with ⟨hx, ht⟩
    have IH := ih ht
    by_cases hqx : q x = true
    · rw [List.countP_cons_of_pos _ _ hqx]
      constructor
      · intro j hj
        match j with
        | 0 => exact hqx
        | j + 1 =>
          rw [List.getD_cons_succ]
          exact IH.1 j (by omega)
      · intro j hj hjl
        match j with
        | 0 => omega
        | j + 1 =>
          rw [List.getD_cons_succ]
          exact IH.2 j (by omega) (by simpa using hjl)
    · have hqx2 : q x = false := by simpa using hqx
      have hall : ∀ y ∈ t, q y = false := by
        intro y hy
        by_contra hcon
        exact hqx (hq x y (hx y hy) (by simpa using hcon))
      have hcnt : t.countP q = 0 := List.countP_eq_zero.mpr
        (by intro y hy; simp [hall y hy])
      rw [List.countP_cons_of_neg _ _ (by simp [hqx2]), hcnt]
      constructor
      · intro j hj; omega
      · intro j _ hjl
        match j with
        | 0 => exact hqx2
        | j + 1 =>
          rw [List.getD_cons_succ]
          exact hall _ (getD_mem t j (by simpa using hjl))

lemma countP_eq_of_bounds (q : ℚ → Bool) (hq : ∀ a b : ℚ, a ≤ b → q b = true → q a = true)
    (xs : List ℚ) (hs : xs.Pairwise (· ≤ ·)) (k : ℕ) (hk : k ≤ xs.length)
    (hb : 0 < k → q (xs.getD (k - 1) 0) = true)
    (hc : k < xs.length → q (xs.getD k 0) = false) :
    xs.countP q = k := by
  have char := countP_prefix_char q hq xs hs
  have hlen : xs.countP q ≤ xs.length := List.countP_le_length _
  rcases Nat.lt_trichotomy (xs.countP q) k with h | h | h
  · exfalso
    have h0 : 0 < k := by omega
    have := char.2 (k - 1) (by omega) (by omega)
    rw [hb h0] at this
    exact Bool.true_eq_false.mp this
  · exact h
  · exfalso
    have := char.1 k (by omega)
    rw [hc (by omega)] at this
    exact Bool.false_eq_true.mp this

/-! ## Grid monotonicity -/

lemma linspace_mono (a b : ℚ) (n : ℕ) (hab : a < b) (hn : 0 < n)
    {i j : ℕ} (hij : i < j) :
    a + (b - a) * (i : ℚ) / n < a + (b - a) * (j : ℚ) / n := by
  have hn2 : (0 : ℚ) < n := by exact_mod_cast hn
  have hij2 : (i : ℚ) < j := by exact_mod_cast hij
  have hba : (0 : ℚ) < b - a := sub_pos.mpr hab
  have hmul : (b - a) * (i : ℚ) < (b - a) * j := by nlinarith
  exact add_lt_add_left ((div_lt_div_iff_of_pos_right hn2).mpr hmul) a

lemma pairwise_lt_linspace (a b : ℚ) (n : ℕ) (hab : a < b) (hn : 0 < n) :
    (linspace a b n).Pairwise (· < ·) := by
  rw [linspace, List.pairwise_map]
  exact (List.pairwise_lt_range _).imp (fun h => linspace_mono a b n hab hn h)

lemma pairwise_le_linspace (a b : ℚ) (n : ℕ) (hab : a < b) (hn : 0 < n) :
    (linspace a b n).Pairwise (· ≤ ·) :=
  (pairwise_lt_linspace a b n hab hn).imp le_of_lt

/-! ## bump / pyBump lemmas -/

lemma bump_length (v : List ℚ) (n : ℕ) (a : ℚ) : (bump v n a).length = v.length := by
  induction v generalizing n with
  | nil => rfl
  | cons x t ih =>
    cases n with
    | zero => rfl
    | succ m => simp [bump, ih]

lemma pyBump_length (v : List ℚ) (i : ℤ) (a : ℚ) : (pyBump v i a).length = v.length := by
  rw [pyBump]
  split <;> split <;> first | exact bump_length _ _ _ | rfl

lemma pyBump_coe (v : List ℚ) (n : ℕ) (a : ℚ) (h : n < v.length) :
    pyBump v (n : ℤ) a = bump v n a := by
  rw [pyBump]
  have h1 : ¬((n : ℤ) < 0) := by omega
  rw [if_neg h1, if_pos (by constructor <;> omega)]
  simp

lemma pyBump_neg_one (v : List ℚ) (a : ℚ) (h : 0 < v.length) :
    pyBump v (-1) a = bump v (v.length - 1) a := by
  rw [pyBump]
  have h1 : (-1 : ℤ) < 0 := by omega
  rw [if_pos h1, if_pos (by constructor <;> omega)]
  congr 1
  omega

/-! ## foldl lemmas -/

lemma foldl_len_fix {α : Type} (L : List α) (f : List ℚ → α → List ℚ) (n : ℕ)
    (h : ∀ v a, a ∈ L → v.length = n → (f v a).length = n) :
    ∀ v, v.length = n → (L.foldl f v).length = n := by
  induction L with
  | nil => intro v hv; simpa using hv
  | cons x t ih =>
    intro v hv
    rw [List.foldl_cons]
    exact ih (fun v a ha hv => h v a (by simp [ha]) hv)
      _ (h v x (by simp) hv)

lemma foldl_inv_congr {α : Type} (L : List α) (f g : List ℚ → α → List ℚ) (n : ℕ)
    (hfg : ∀ v a, a ∈ L → v.length = n → f v a = g v a)
    (hg : ∀ v a, a ∈ L → v.length = n → (g v a).length = n) :
    ∀ v, v.length = n → L.foldl f v = L.foldl g v := by
  induction L with
  | nil => intro v _; rfl
  | cons x t ih =>
    intro v hv
    rw [List.foldl_cons, List.foldl_cons, hfg v x (by simp) hv]
    exact ih (fun v a ha hv => hfg v a (by simp [ha]) hv)
      (fun v a ha hv => hg v a (by simp [ha]) hv)
      _ (hg v x (by simp) hv)

/-! ## blend and length lemmas -/

lemma blend_one : ∀ (l r : List ℚ), l.length = r.length → blend l r 1 = r := by
  intro l
  induction l with
  | nil =>
    intro r h
    rw [List.length_nil] at h
    rw [(List.length_eq_zero.mp h.symm : r = [])]
    rfl
  | cons x t ih =>
    intro r h
    cases r with
    | nil => simp at h
    | cons y s =>
      show List.zipWith _ (x :: t) (y :: s) = y :: s
      rw [List.zipWith_cons_cons]
      have hx : x * (1 - 1) + y * 1 = y := by ring
      rw [hx]
      exact congrArg (y :: ·) (ih s (by simpa using h))

lemma zipAdd_length (a b : List ℚ) : (zipAdd a b).length = min a.length b.length := by
  simp [zipAdd]

lemma zipMul_length (a b : List ℚ) : (zipMul a b).length = min a.length b.length := by
  simp [zipMul]

lemma lineVec_length (p : PreparedApec) (gk : GaussKernel) (e t : ℕ) :
    (lineVec p gk e t).length = p.nchan := by
  rw [lineVec]
  split
  · rw [broadLines]
    refine foldl_len_fix _ _ _ (fun v a _ hv => ?_) _ (zerosQ_length _)
    rw [zipAdd_length, hv]
    simp
  · rw [depositLines]
    exact foldl_len_fix _ _ _ (fun v a _ hv => by rw [pyBump_length, hv]) _
      (zerosQ_length _)

lemma make_spectrum_length (p : PreparedApec) (gk : GaussKernel) (e t : ℕ)
    (hem : p.emid.length = p.nchan) (hde : p.de.length = p.nchan) :
    (TableApecModel.make_spectrum p gk e t).length = p.nchan := by
  rw [TableApecModel.make_spectrum]
  have h1 : (zipAdd (zerosQ p.nchan) (lineVec p gk e t)).length = p.nchan := by
    rw [zipAdd_length, zerosQ_length, lineVec_length]
    simp
  split
  · exact h1
  · rw [zipAdd_length, zipAdd_length, zipMul_length, zipMul_length,
        List.length_map, List.length_map, hem, hde, h1]
    simp

lemma sumSpec_length (p : PreparedApec) (gk : GaussKernel) (elems : List ℕ)
    (blk : ℕ) (hem : p.emid.length = p.nchan) (hde : p.de.length = p.nchan) :
    (sumSpec p gk elems blk).length = p.nchan := by
  rw [sumSpec]
  refine foldl_len_fix _ _ _ (fun v a _ hv => ?_) _ (zerosQ_length _)
  rw [zipAdd_length, hv, make_spectrum_length p gk a blk hem hde]
  simp

/-! ## Pinning searchsorted on sorted arrays -/

lemma decide_lt_mono (v : ℚ) : ∀ a b : ℚ, a ≤ b →
    decide (b < v) = true → decide (a < v) = true := by
  intro a b hab h
  simp only [decide_eq_true_eq] at h ⊢
  linarith

lemma decide_le_mono (v : ℚ) : ∀ a b : ℚ, a ≤ b →
    decide (b ≤ v) = true → decide (a ≤ v) = true := by
  intro a b hab h
  simp only [decide_eq_true_eq] at h ⊢
  linarith

lemma ssLeft_eq (xs : List ℚ) (v : ℚ) (hs : xs.Pairwise (· ≤ ·)) (k : ℕ)
    (hk : k ≤ xs.length) (hb : 0 < k → xs.getD (k - 1) 0 < v)
    (hc : k < xs.length → ¬(xs.getD k 0 < v)) :
    ssLeft xs v = k :=
  countP_eq_of_bounds _ (decide_lt_mono v) xs hs k hk
    (fun h => by simpa using hb h) (fun h => by simpa using hc h)

lemma ssRight_eq (xs : List ℚ) (v : ℚ) (hs : xs.Pairwise (· ≤ ·)) (k : ℕ)
    (hk : k ≤ xs.length) (hb : 0 < k → xs.getD (k - 1) 0 ≤ v)
    (hc : k < xs.length → ¬(xs.getD k 0 ≤ v)) :
    ssRight xs v = k :=
  countP_eq_of_bounds _ (decide_le_mono v) xs hs k hk
    (fun h => by simpa using hb h) (fun h => by simpa using hc h)

lemma ssRight_char (xs : List ℚ) (v : ℚ) (hs : xs.Pairwise (· ≤ ·)) :
    (∀ j, j < ssRight xs v → xs.getD j 0 ≤ v) ∧
    (∀ j, ssRight xs v ≤ j → j < xs.length → ¬(xs.getD j 0 ≤ v)) := by
  have char := countP_prefix_char _ (decide_le_mono v) xs hs
  exact ⟨fun j hj => by simpa using char.1 j hj,
         fun j hj hjl => by simpa using char.2 j hj hjl⟩

/-! ## Reduction lemmas for get_spectrum -/

lemma get_spectrum_zero (p : PreparedApec) (gk : GaussKernel) (kT : ℚ)
    (h : ssLeft p.Tvals kT = 0 ∨ p.Tvals.length ≤ ssLeft p.Tvals kT) :
    TableApecModel.get_spectrum p gk kT = (zerosQ p.nchan, zerosQ p.nchan) := by
  have hcond : tindexOf p kT ≥ (p.Tvals.length : ℤ) - 1 ∨ tindexOf p kT < 0 := by
    unfold tindexOf
    rcases h with h | h
    · right; omega
    · left; omega
  simp only [TableApecModel.get_spectrum]
  rw [if_pos hcond]

lemma get_spectrum_in_range (p : PreparedApec) (gk : GaussKernel) (kT : ℚ) (i : ℕ)
    (hcount : ssLeft p.Tvals kT = i + 1) (hlen : i + 1 < p.Tvals.length) :
    TableApecModel.get_spectrum p gk kT =
      (blend (sumSpec p gk p.cosmic_elem (i + 2)) (sumSpec p gk p.cosmic_elem (i + 3))
         ((kT - p.Tvals.getD i 0) / p.dTvals.getD i 0),
       blend (sumSpec p gk p.metal_elem (i + 2)) (sumSpec p gk p.metal_elem (i + 3))
         ((kT - p.Tvals.getD i 0) / p.dTvals.getD i 0)) := by
  have ht : tindexOf p kT = (i : ℤ) := by
    unfold tindexOf
    omega
  have hcond : ¬(tindexOf p kT ≥ (p.Tvals.length : ℤ) - 1 ∨ tindexOf p kT < 0) := by
    rw [ht]
    omega
  simp only [TableApecModel.get_spectrum]
  rw [if_neg hcond, ht]
  simp only [Int.toNat_natCast]

/-- The composite success path used by every claim about a ready
TabulatedEmission: __init__ followed by the success branch of
prepare_spectrum. -/
def apecPrepared (root vers : String) (emin emax : ℚ) (nchan : ℕ) (tb : Bool)
    (lf : LineFile) (cf : CocoFile) (z : ℚ) : PreparedApec :=
  TableApecModel.prepared (TableApecModel.init root vers emin emax nchan tb) lf cf z

lemma apecPrepared_Tvals (root vers : String) (emin emax : ℚ) (nchan : ℕ) (tb : Bool)
    (lf : LineFile) (cf : CocoFile) (z : ℚ) :
    (apecPrepared root vers emin emax nchan tb lf cf z).Tvals = lf.kT := rfl

lemma apecPrepared_dTvals (root vers : String) (emin emax : ℚ) (nchan : ℕ) (tb : Bool)
    (lf : LineFile) (cf : CocoFile) (z : ℚ) :
    (apecPrepared root vers emin emax nchan tb lf cf z).dTvals = npdiff lf.kT := rfl

lemma apecPrepared_nchan (root vers : String) (emin emax : ℚ) (nchan : ℕ) (tb : Bool)
    (lf : LineFile) (cf : CocoFile) (z : ℚ) :
    (apecPrepared root vers emin emax nchan tb lf cf z).nchan = nchan := rfl

lemma apecPrepared_ebins (root vers : String) (emin emax : ℚ) (nchan : ℕ) (tb : Bool)
    (lf : LineFile) (cf : CocoFile) (z : ℚ) :
    (apecPrepared root vers emin emax nchan tb lf cf z).ebins = linspace emin emax nchan := rfl

lemma apecPrepared_emid (root vers : String) (emin emax : ℚ) (nchan : ℕ) (tb : Bool)
    (lf : LineFile) (cf : CocoFile) (z : ℚ) :
    (apecPrepared root vers emin emax nchan tb lf cf z).emid
      = npmid (linspace emin emax nchan) := rfl

lemma apecPrepared_de (root vers : String) (emin emax : ℚ) (nchan : ℕ) (tb : Bool)
    (lf : LineFile) (cf : CocoFile) (z : ℚ) :
    (apecPrepared root vers emin emax nchan tb lf cf z).de
      = npdiff (linspace emin emax nchan) := rfl

lemma apecPrepared_scale_factor (root vers : String) (emin emax : ℚ) (nchan : ℕ) (tb : Bool)
    (lf : LineFile) (cf : CocoFile) (z : ℚ) :
    (apecPrepared root vers emin emax nchan tb lf cf z).scale_factor = 1 / (1 + z) := rfl

lemma apecPrepared_emid_length (root vers : String) (emin emax : ℚ) (nchan : ℕ) (tb : Bool)
    (lf : LineFile) (cf : CocoFile) (z : ℚ) :
    (apecPrepared root vers emin emax nchan tb lf cf z).emid.length = nchan := by
  rw [apecPrepared_emid, length_npmid, length_linspace]
  omega

lemma apecPrepared_de_length (root vers : String) (emin emax : ℚ) (nchan : ℕ) (tb : Bool)
    (lf : LineFile) (cf : CocoFile) (z : ℚ) :
    (apecPrepared root vers emin emax nchan tb lf cf z).de.length = nchan := by
  rw [apecPrepared_de, length_npdiff, length_linspace]
  omega

/-! ## Concrete fixtures for witnesses and counterexamples -/

/-- A Gaussian kernel placeholder for concrete tests; every concrete
model below has thermal broadening disabled, so it is never entered. -/
def gkZero : GaussKernel := fun _ _ _ _ => 0

/-- A continuum table with no records at all. -/
def cocoEmpty : CocoFile := ⟨fun _ => []⟩

/-- Line table: temperature grid [1, 2] keV; one hydrogen line at
wavelength 8 angstrom, amplitude 5, in block 3 (right block of the only
grid interval). -/
def lineTblRight : LineFile :=
  { kT := [1, 2], blocks := fun b => if b = 3 then [⟨1, 8, 5⟩] else [] }

/-- Line table: temperature grid [1, 2] keV; the same line but in block
2 (left block of the only grid interval). -/
def lineTblLeft : LineFile :=
  { kT := [1, 2], blocks := fun b => if b = 2 then [⟨1, 8, 5⟩] else [] }

/-- Line table: temperature grid [1, 2, 4] keV; one hydrogen line in
block 3. -/
def lineTbl3 : LineFile :=
  { kT := [1, 2, 4], blocks := fun b => if b = 3 then [⟨1, 8, 5⟩] else [] }

/-- Line table: temperature grid [1, 2] keV; one hydrogen line at
wavelength 12 angstrom (close to the long-wavelength bound), amplitude
3, in block 3.  Combined with redshift 1 its observed energy falls
below the energy grid. -/
def lineTblRed : LineFile :=
  { kT := [1, 2], blocks := fun b => if b = 3 then [⟨1, 12, 3⟩] else [] }

/-- Prepared model on grid (1 keV, 2 keV, 2 channels), redshift 0, line
data in the right block. -/
def pRight : PreparedApec :=
  apecPrepared "atomdb" "2.0.2" 1 2 2 false lineTblRight cocoEmpty 0

/-- Prepared model on the same grid, line data in the left block. -/
def pLeft : PreparedApec :=
  apecPrepared "atomdb" "2.0.2" 1 2 2 false lineTblLeft cocoEmpty 0

/-- Prepared model with the three-entry temperature grid. -/
def pGrid3 : PreparedApec :=
  apecPrepared "atomdb" "2.0.2" 1 2 2 false lineTbl3 cocoEmpty 0

/-- Prepared model at redshift 1 (scale factor 1/2). -/
def pRed : PreparedApec :=
  apecPrepared "atomdb" "2.0.2" 1 2 2 false lineTblRed cocoEmpty 1

/-! ## C1 -/

/-- C1 (amended): for every prepared TabulatedEmission over a sorted
temperature grid, a query temperature strictly below the minimum grid
temperature or strictly above the maximum yields, for both components,
the all-zero spectrum of length nchan, with no error.  (The original
claim also asserted zeros at kT exactly equal to the maximum grid
temperature; c1_counterexample refutes that part, so the bound here is
strict.) -/
theorem c1_out_of_range_returns_zero (root vers : String) (emin emax : ℚ)
    (nchan : ℕ) (tb : Bool) (lf : LineFile) (cf : CocoFile) (z kT : ℚ)
    (gk : GaussKernel) (hs : lf.kT.Pairwise (· ≤ ·))
    (h : kT < lf.kT.getD 0 0 ∨ lf.kT.getD (lf.kT.length - 1) 0 < kT) :
    TableApecModel.get_spectrum (apecPrepared root vers emin emax nchan tb lf cf z) gk kT
      = (zerosQ nchan, zerosQ nchan) ∧ (zerosQ nchan).length = nchan := by
  refine ⟨?_, zerosQ_length _⟩
  rcases h with h | h
  · have hz : ssLeft lf.kT kT = 0 :=
      ssLeft_eq lf.kT kT hs 0 (by omega)
        (fun h0 => absurd h0 (by omega))
        (fun hlen => by
          have := sorted_head_le lf.kT hs
          intro hcon
          linarith)
    exact get_spectrum_zero _ gk kT (Or.inl hz)
  · have hz : ssLeft lf.kT kT = lf.kT.length :=
      ssLeft_eq lf.kT kT hs lf.kT.length (le_refl _)
        (fun h0 => h)
        (fun hlen => absurd hlen (lt_irrefl _))
    exact get_spectrum_zero _ gk kT (Or.inr (le_of_eq hz.symm))

/-- C1 witness: the theorem applied at the concrete prepared model
pRight (grid temperatures [1, 2]) and kT = 1/2 below the grid. -/
theorem c1_out_of_range_returns_zero_witness :
    TableApecModel.get_spectrum pRight gkZero (1 / 2) = (zerosQ 2, zerosQ 2) ∧
    (zerosQ 2).length = 2 :=
  c1_out_of_range_returns_zero "atomdb" "2.0.2" 1 2 2 false lineTblRight cocoEmpty 0
    (1 / 2) gkZero (by with_unfolding_all decide)
    (Or.inl (by with_unfolding_all decide))

/-- C1 counterexample: on the prepared model pRight the maximum
tabulated temperature is 2, and get_spectrum at kT = 2 is not the zero
pair (it returns the right-block spectrum with blend weight dT = 1), so
the claim that kT at the maximum yields all-zero output is false. -/
theorem c1_counterexample :
    listMax pRight.Tvals = 2 ∧
    TableApecModel.get_spectrum pRight gkZero 2 ≠ (zerosQ 2, zerosQ 2) := by
  with_unfolding_all decide

/-! ## C2 -/

/-- C2 (amended): for a prepared TabulatedEmission over a strictly
sorted temperature grid and kT exactly equal to grid temperature T[i]
that is not the last: because the temperature search is a left-side
binary search, the insertion point for an exact match is i, so tindex =
i - 1.  For i = 0 that makes tindex = -1 and the out-of-range branch
returns the all-zero pair; for i ≥ 1 the interpolation fraction dT
equals 1 (not 0 as claimed) and the result is exactly the
_make_spectrum sums at the right table block i + 2, with no
contribution from the left block. -/
theorem c2_exact_grid_temperature (root vers : String) (emin emax : ℚ)
    (nchan : ℕ) (tb : Bool) (lf : LineFile) (cf : CocoFile) (z : ℚ)
    (gk : GaussKernel) (i : ℕ)
    (hs : lf.kT.Pairwise (· < ·)) (hi1 : i + 1 < lf.kT.length) :
    (i = 0 →
      TableApecModel.get_spectrum (apecPrepared root vers emin emax nchan tb lf cf z)
        gk (lf.kT.getD i 0) = (zerosQ nchan, zerosQ nchan))
    ∧ (1 ≤ i →
      TableApecModel.get_spectrum (apecPrepared root vers emin emax nchan tb lf cf z)
        gk (lf.kT.getD i 0)
      = (sumSpec (apecPrepared root vers emin emax nchan tb lf cf z) gk
           (apecPrepared root vers emin emax nchan tb lf cf z).cosmic_elem (i + 2),
         sumSpec (apecPrepared root vers emin emax nchan tb lf cf z) gk
           (apecPrepared root vers emin emax nchan tb lf cf z).metal_elem (i + 2))) := by
  have hsle : lf.kT.Pairwise (· ≤ ·) := hs.imp le_of_lt
  constructor
  · intro h0
    subst h0
    have hz : ssLeft lf.kT (lf.kT.getD 0 0) = 0 :=
      ssLeft_eq lf.kT _ hsle 0 (by omega)
        (fun h0 => absurd h0 (by omega))
        (fun hlen => lt_irrefl _)
    exact get_spectrum_zero _ gk _ (Or.inl hz)
  · intro h1
    have hi0 : i - 1 + 1 = i := by omega
    have hcount : ssLeft lf.kT (lf.kT.getD i 0) = i :=
      ssLeft_eq lf.kT _ hsle i (by omega)
        (fun h0 => pairwise_getD lf.kT hs (i - 1) i (by omega) (by omega))
        (fun hlen => lt_irrefl _)
    have hin := get_spectrum_in_range
      (apecPrepared root vers emin emax nchan tb lf cf z) gk (lf.kT.getD i 0) (i - 1)
      (by rw [apecPrepared_Tvals, hi0]; exact hcount)
      (by rw [apecPrepared_Tvals, hi0]; omega)
    rw [hin, apecPrepared_Tvals, apecPrepared_dTvals,
        getD_npdiff lf.kT (by omega), hi0]
    have hlt : lf.kT.getD (i - 1) 0 < lf.kT.getD i 0 :=
      pairwise_getD lf.kT hs (i - 1) i (by omega) (by omega)
    have hdT : (lf.kT.getD i 0 - lf.kT.getD (i - 1) 0)
        / (lf.kT.getD i 0 - lf.kT.getD (i - 1) 0) = 1 :=
      div_self (sub_ne_zero.mpr (ne_of_gt hlt))
    rw [hdT, show i - 1 + 3 = i + 2 from by omega]
    have hem : (apecPrepared root vers emin emax nchan tb lf cf z).emid.length
        = (apecPrepared root vers emin emax nchan tb lf cf z).nchan := by
      rw [apecPrepared_emid_length, apecPrepared_nchan]
    have hde : (apecPrepared root vers emin emax nchan tb lf cf z).de.length
        = (apecPrepared root vers emin emax nchan tb lf cf z).nchan := by
      rw [apecPrepared_de_length, apecPrepared_nchan]
    have hl1 := sumSpec_length (apecPrepared root vers emin emax nchan tb lf cf z) gk
      (apecPrepared root vers emin emax nchan tb lf cf z).cosmic_elem (i - 1 + 2) hem hde
    have hl2 := sumSpec_length (apecPrepared root vers emin emax nchan tb lf cf z) gk
      (apecPrepared root vers emin emax nchan tb lf cf z).cosmic_elem (i + 2) hem hde
    have hl3 := sumSpec_length (apecPrepared root vers emin emax nchan tb lf cf z) gk
      (apecPrepared root vers emin emax nchan tb lf cf z).metal_elem (i - 1 + 2) hem hde
    have hl4 := sumSpec_length (apecPrepared root vers emin emax nchan tb lf cf z) gk
      (apecPrepared root vers emin emax nchan tb lf cf z).metal_elem (i + 2) hem hde
    rw [blend_one _ _ (by rw [hl1, hl2]), blend_one _ _ (by rw [hl3, hl4])]

/-- C2 witness: the amended theorem applied at the concrete model
pGrid3 (grid [1, 2, 4]) with i = 1, kT = 2: the result is exactly the
block-3 sums. -/
theorem c2_exact_grid_temperature_witness :
    TableApecModel.get_spectrum pGrid3 gkZero (lineTbl3.kT.getD 1 0)
      = (sumSpec pGrid3 gkZero pGrid3.cosmic_elem 3,
         sumSpec pGrid3 gkZero pGrid3.metal_elem 3) :=
  (c2_exact_grid_temperature "atomdb" "2.0.2" 1 2 2 false lineTbl3 cocoEmpty 0
    gkZero 1 (by with_unfolding_all decide) (by with_unfolding_all decide)).2
    (by omega)

/-- C2 counterexample: on the prepared model pLeft the temperature grid
is [1, 2] and the line data sit in block 2, the left block of the
claimed lookup.  At kT = 1, which is grid temperature T[0] and not the
last one, the claim predicts the left-block sum (nonzero here), but the
code returns the all-zero pair. -/
theorem c2_counterexample :
    pLeft.Tvals.getD 0 0 = 1 ∧
    TableApecModel.get_spectrum pLeft gkZero 1 = (zerosQ 2, zerosQ 2) ∧
    sumSpec pLeft gkZero pLeft.cosmic_elem 2 ≠ zerosQ 2 := by
  with_unfolding_all decide

/-! ## C3 -/

/-- C3: for every prepared TabulatedEmission over a strictly sorted
temperature grid and kT strictly between adjacent grid temperatures
T[i] and T[i+1], get_spectrum equals, for both components, the linear
blend left*(1-dT) + right*dT with dT = (kT - T[i])/(T[i+1] - T[i]),
where left and right are the element-set sums of _make_spectrum at
table blocks i+2 and i+3. -/
theorem c3_linear_blend (root vers : String) (emin emax : ℚ) (nchan : ℕ)
    (tb : Bool) (lf : LineFile) (cf : CocoFile) (z kT : ℚ) (gk : GaussKernel)
    (i : ℕ) (hs : lf.kT.Pairwise (· < ·)) (hi1 : i + 1 < lf.kT.length)
    (hlo : lf.kT.getD i 0 < kT) (hhi : kT < lf.kT.getD (i + 1) 0) :
    TableApecModel.get_spectrum (apecPrepared root vers emin emax nchan tb lf cf z) gk kT
      = (blend (sumSpec (apecPrepared root vers emin emax nchan tb lf cf z) gk
             (apecPrepared root vers emin emax nchan tb lf cf z).cosmic_elem (i + 2))
           (sumSpec (apecPrepared root vers emin emax nchan tb lf cf z) gk
             (apecPrepared root vers emin emax nchan tb lf cf z).cosmic_elem (i + 3))
           ((kT - lf.kT.getD i 0) / (lf.kT.getD (i + 1) 0 - lf.kT.getD i 0)),
         blend (sumSpec (apecPrepared root vers emin emax nchan tb lf cf z) gk
             (apecPrepared root vers emin emax nchan tb lf cf z).metal_elem (i + 2))
           (sumSpec (apecPrepared root vers emin emax nchan tb lf cf z) gk
             (apecPrepared root vers emin emax nchan tb lf cf z).metal_elem (i + 3))
           ((kT - lf.kT.getD i 0) / (lf.kT.getD (i + 1) 0 - lf.kT.getD i 0))) := by
  have hsle : lf.kT.Pairwise (· ≤ ·) := hs.imp le_of_lt
  have hcount : ssLeft lf.kT kT = i + 1 :=
    ssLeft_eq lf.kT kT hsle (i + 1) (by omega)
      (fun h0 => by rw [show i + 1 - 1 = i from by omega]; exact hlo)
      (fun hlen => by intro hcon; linarith)
  have hin := get_spectrum_in_range
    (apecPrepared root vers emin emax nchan tb lf cf z) gk kT i
    (by rw [apecPrepared_Tvals]; exact hcount)
    (by rw [apecPrepared_Tvals]; omega)
  rw [hin, apecPrepared_Tvals, apecPrepared_dTvals, getD_npdiff lf.kT (by omega)]

/-- C3 witness: the theorem applied at the concrete prepared model
pRight with kT = 3/2 strictly inside the grid interval (1, 2). -/
theorem c3_linear_blend_witness :
    TableApecModel.get_spectrum pRight gkZero (3 / 2)
      = (blend (sumSpec pRight gkZero pRight.cosmic_elem 2)
           (sumSpec pRight gkZero pRight.cosmic_elem 3)
           ((3 / 2 - lineTblRight.kT.getD 0 0)
             / (lineTblRight.kT.getD 1 0 - lineTblRight.kT.getD 0 0)),
         blend (sumSpec pRight gkZero pRight.metal_elem 2)
           (sumSpec pRight gkZero pRight.metal_elem 3)
           ((3 / 2 - lineTblRight.kT.getD 0 0)
             / (lineTblRight.kT.getD 1 0 - lineTblRight.kT.getD 0 0))) :=
  c3_linear_blend "atomdb" "2.0.2" 1 2 2 false lineTblRight cocoEmpty 0 (3 / 2)
    gkZero 0 (by with_unfolding_all decide) (by with_unfolding_all decide)
    (by with_unfolding_all decide) (by with_unfolding_all decide)

/-! ## C5 -/

/-- C5: for every EnergyGrid built by SpectralModel.__init__ from
(emin, emax, nchan) with emin < emax and nchan > 0: bin_edges has
nchan+1 strictly increasing entries spanning emin to emax,
bin_widths[i] = bin_edges[i+1] - bin_edges[i] and
bin_centers[i] = 0.5*(bin_edges[i] + bin_edges[i+1]) for every
i < nchan. -/
theorem c5_energy_grid (emin emax : ℚ) (nchan : ℕ)
    (hab : emin < emax) (hn : 0 < nchan) :
    (SpectralModel.init emin emax nchan).ebins.length = nchan + 1 ∧
    (SpectralModel.init emin emax nchan).ebins.Pairwise (· < ·) ∧
    (SpectralModel.init emin emax nchan).ebins.getD 0 0 = emin ∧
    (SpectralModel.init emin emax nchan).ebins.getD nchan 0 = emax ∧
    (∀ i, i < nchan →
      (SpectralModel.init emin emax nchan).de.getD i 0
        = (SpectralModel.init emin emax nchan).ebins.getD (i + 1) 0
          - (SpectralModel.init emin emax nchan).ebins.getD i 0 ∧
      (SpectralModel.init emin emax nchan).emid.getD i 0
        = 0.5 * ((SpectralModel.init emin emax nchan).ebins.getD i 0
          + (SpectralModel.init emin emax nchan).ebins.getD (i + 1) 0)) := by
  have hE : (SpectralModel.init emin emax nchan).ebins = linspace emin emax nchan := rfl
  have hD : (SpectralModel.init emin emax nchan).de = npdiff (linspace emin emax nchan) := rfl
  have hM : (SpectralModel.init emin emax nchan).emid = npmid (linspace emin emax nchan) := rfl
  have hn2 : (nchan : ℚ) ≠ 0 := by positivity
  refine ⟨?_, ?_, ?_, ?_, ?_⟩
  · rw [hE, length_linspace]
  · rw [hE]
    exact pairwise_lt_linspace _ _ _ hab hn
  · rw [hE, getD_linspace emin emax (by omega)]
    simp
  · rw [hE, getD_linspace emin emax (le_refl nchan)]
    field_simp
  · intro i hi
    constructor
    · rw [hD, hE, getD_npdiff _ (by rw [length_linspace]; omega)]
    · rw [hM, hE, getD_npmid _ (by rw [length_linspace]; omega)]
      ring

/-- C5 witness: the theorem applied at the concrete grid
(emin, emax, nchan) = (0, 1, 2), with the width and center identities
instantiated at channel 1. -/
theorem c5_energy_grid_witness :
    (SpectralModel.init 0 1 2).ebins.length = 3 ∧
    (SpectralModel.init 0 1 2).ebins.Pairwise (· < ·) ∧
    (SpectralModel.init 0 1 2).de.getD 1 0
      = (SpectralModel.init 0 1 2).ebins.getD 2 0
        - (SpectralModel.init 0 1 2).ebins.getD 1 0 := by
  have h := c5_energy_grid 0 1 2 (by norm_num) (by norm_num)
  exact ⟨h.1, h.2.1, (h.2.2.2.2 1 (by omega)).1⟩

/-! ## C7 -/

/-- C7 (amended): SpectralModel.__init__ performs no validation at all:
for every input, including emax ≤ emin or nchan = 0, construction
succeeds without error, stores the arguments unchanged and builds the
nchan+1 linspace edges (degenerate or decreasing when the range is
invalid).  No InvalidRangeError exists in the source. -/
theorem c7_no_validation (emin emax : ℚ) (nchan : ℕ) :
    (SpectralModel.init emin emax nchan).emin = emin ∧
    (SpectralModel.init emin emax nchan).emax = emax ∧
    (SpectralModel.init emin emax nchan).nchan = nchan ∧
    (SpectralModel.init emin emax nchan).ebins.length = nchan + 1 :=
  ⟨rfl, rfl, rfl, by
    rw [show (SpectralModel.init emin emax nchan).ebins
        = linspace emin emax nchan from rfl, length_linspace]⟩

/-- C7 counterexample: constructing with emax = 1 below emin = 2 (an
invalid range per the claim) raises nothing: it returns a grid object
with 11 edges running decreasingly from 2 to 1, refuting the claim that
construction fails with InvalidRangeError. -/
theorem c7_counterexample :
    (SpectralModel.init 2 1 10).nchan = 10 ∧
    (SpectralModel.init 2 1 10).ebins.length = 11 ∧
    (SpectralModel.init 2 1 10).ebins.getD 0 0 = 2 ∧
    (SpectralModel.init 2 1 10).ebins.getD 10 0 = 1 := by
  with_unfolding_all decide

/-! ## C8 -/

/-- C8 (amended): for TabulatedEmission (TableApecModel), a missing
line file makes prepare_spectrum raise the LINE IOError with the
attribute state untouched; a present line file with a missing continuum
file makes it raise the COCO IOError with the line handle already
assigned on the object (the source sets self.line_handle before trying
the continuum file), so the object is left partially prepared there —
temperature grid, wavelength bounds and scale factor still unset; on
success every prepare attribute is set to the values of the prepared
state.  For TabulatedAbsorption (TableAbsorbModel) the missing-file
IOError is raised by the constructor, not by prepare_spectrum, whose
body is a no-op that can raise nothing. -/
theorem c8_missing_table_behaviour :
    (∀ (m : ApecModel) (s : ApecAttrs) (cff : Option CocoFile) (z : ℚ),
      TableApecModel.prepare_spectrum m s none cff z
        = (s, .error ("LINE file " ++ m.linefile ++ " does not exist"))) ∧
    (∀ (m : ApecModel) (s : ApecAttrs) (lf : LineFile) (z : ℚ),
      TableApecModel.prepare_spectrum m s (some lf) none z
        = ({ s with line_handle := some lf },
           .error ("COCO file " ++ m.cocofile ++ " does not exist"))) ∧
    (∀ (m : ApecModel) (s : ApecAttrs) (lf : LineFile) (cf : CocoFile) (z : ℚ),
      TableApecModel.prepare_spectrum m s (some lf) (some cf) z
        = ({ line_handle := some lf
             coco_handle := some cf
             Tvals := some (TableApecModel.prepared m lf cf z).Tvals
             dTvals := some (TableApecModel.prepared m lf cf z).dTvals
             minlam := some (TableApecModel.prepared m lf cf z).minlam
             maxlam := some (TableApecModel.prepared m lf cf z).maxlam
             scale_factor := some (TableApecModel.prepared m lf cf z).scale_factor },
           .ok ())) ∧
    (∀ (fn : String) (nH : ℚ),
      TableAbsorbModel.init fn none nH
        = .error ("File does not exist: " ++ fn ++ ".")) ∧
    (∀ m : TableAbsorbModel, TableAbsorbModel.prepare_spectrum m = ()) :=
  ⟨fun _ _ _ _ => rfl, fun _ _ _ _ => rfl, fun _ _ _ _ _ => rfl,
   fun _ _ => rfl, fun _ => rfl⟩

/-- C8 counterexample: two concrete refutations of the original claim.
With the line file present and the continuum file missing,
prepare_spectrum on a freshly constructed model raises the COCO error
while the line table handle has been assigned — so the object is not
left without table handles as claimed.  And for TabulatedAbsorption
with a missing table file the error is raised already by the
constructor, before prepare could run. -/
theorem c8_counterexample :
    (TableApecModel.prepare_spectrum (TableApecModel.init "atomdb" "2.0.2" 1 2 2 false)
        TableApecModel.unpreparedAttrs (some lineTblRight) none 0).2
      = .error "COCO file atomdb/apec_v2.0.2_coco.fits does not exist" ∧
    (TableApecModel.prepare_spectrum (TableApecModel.init "atomdb" "2.0.2" 1 2 2 false)
        TableApecModel.unpreparedAttrs (some lineTblRight) none 0).1.line_handle
      = some lineTblRight ∧
    TableApecModel.unpreparedAttrs.line_handle = none ∧
    TableAbsorbModel.init "tbabs_table.h5" none 1
      = .error "File does not exist: tbabs_table.h5." :=
  ⟨rfl, rfl, rfl, rfl⟩

/-! ## C9 -/

/-- C9: get_spectrum in the Prepared state mutates nothing: as a state
transformer it returns the pre-state unchanged, and a second call on
the resulting state with the same kT returns the same component pair. -/
theorem c9_get_spectrum_repeatable (p : PreparedApec) (gk : GaussKernel) (kT : ℚ) :
    (TableApecModel.get_spectrum_st p gk kT).1 = p ∧
    (TableApecModel.get_spectrum_st (TableApecModel.get_spectrum_st p gk kT).1 gk kT).2
      = (TableApecModel.get_spectrum_st p gk kT).2 :=
  ⟨rfl, rfl⟩

/-! ## C6 -/

/-- C6: a TabulatedAbsorption constructed from a table stores the
column density nH*10^22; get_spectrum computes exp(-sigma*nH)
elementwise; for nonnegative nH (and the physically nonnegative
cross sections) every value lies in [0, 1]; and at nH = 0 the spectrum
is identically 1. -/
theorem c6_beer_lambert (fn : String) (tbl : AbsTable) (nH : ℚ)
    (m : TableAbsorbModel)
    (hinit : TableAbsorbModel.init fn (some tbl) nH = .ok m) :
    m.nH = nH * 10 ^ 22 ∧
    TableAbsorbModel.get_spectrum m
      = m.sigma.map (fun s : ℚ => Real.exp (-((s : ℝ) * (m.nH : ℝ)))) ∧
    (0 ≤ nH → (∀ s ∈ m.sigma, 0 ≤ s) →
      ∀ x ∈ TableAbsorbModel.get_spectrum m, 0 ≤ x ∧ x ≤ 1) ∧
    (nH = 0 → ∀ x ∈ TableAbsorbModel.get_spectrum m, x = 1) := by
  simp only [TableAbsorbModel.init, Except.ok.injEq] at hinit
  subst hinit
  refine ⟨rfl, ?_, ?_, ?_⟩
  · rw [TableAbsorbModel.get_spectrum, TableAbsorbModel.expArgs, List.map_map]
    dsimp only
    apply List.map_congr_left
    intro s _
    simp only [Function.comp]
    congr 1
    push_cast
    ring
  · intro hnH hsig x hx
    simp only [TableAbsorbModel.get_spectrum, TableAbsorbModel.expArgs,
      List.map_map, List.mem_map, Function.comp] at hx
    obtain ⟨s, hs, rfl⟩ := hx
    have hs0 : (0 : ℚ) ≤ s := hsig s hs
    have hs0R : (0 : ℝ) ≤ (s : ℝ) := by exact_mod_cast hs0
    have hnHR : (0 : ℝ) ≤ (nH : ℝ) := by exact_mod_cast hnH
    have h22 : (0 : ℝ) ≤ (10 : ℝ) ^ 22 := by positivity
    have hprod : (0 : ℝ) ≤ (s : ℝ) * ((nH : ℝ) * 10 ^ 22) :=
      mul_nonneg hs0R (mul_nonneg hnHR h22)
    have harg : ((-(s * (nH * 10 ^ 22)) : ℚ) : ℝ) ≤ 0 := by
      push_cast
      linarith
    constructor
    · exact le_of_lt (Real.exp_pos _)
    · calc Real.exp _ ≤ Real.exp 0 := Real.exp_le_exp.mpr harg
        _ = 1 := Real.exp_zero
  · intro h0 x hx
    subst h0
    simp only [TableAbsorbModel.get_spectrum, TableAbsorbModel.expArgs,
      List.map_map, List.mem_map, Function.comp] at hx
    obtain ⟨s, hs, rfl⟩ := hx
    norm_num

/-- The absorption cross-section table used by the C6 witness. -/
def absTbl : AbsTable := { energy := [1, 2], cross_section := [1, 2] }

/-- The absorption model the source builds from absTbl at nH = 1/10. -/
def absModel : TableAbsorbModel :=
  match TableAbsorbModel.init "xsect.h5" (some absTbl) (1 / 10) with
  | .ok m => m
  | .error _ => default

/-- C6 witness: the theorem applied to the concrete table absTbl with
nH = 1/10. -/
theorem c6_beer_lambert_witness :
    absModel.nH = (1 / 10) * 10 ^ 22 ∧
    (∀ x ∈ TableAbsorbModel.get_spectrum absModel, 0 ≤ x ∧ x ≤ 1) := by
  have h := c6_beer_lambert "xsect.h5" absTbl (1 / 10) absModel rfl
  refine ⟨h.1, h.2.2.1 (by norm_num) ?_⟩
  intro s hs
  have hsig : absModel.sigma = [1, 2] := rfl
  rw [hsig] at hs
  simp at hs
  rcases hs with rfl | rfl <;> norm_num

/-! ## C4 -/

/-- The channel index np.searchsorted(ebins, E0, side=right) - 1
assigned to an unbroadened line, as a natural number (meaningful when
the searchsorted result is at least 1, i.e. when some edge is at or
below E0). -/
def chanIdx (p : PreparedApec) (l : LineEntry) : ℕ :=
  ssRight p.ebins (lineE0 p l) - 1

lemma ssRight_bracket (xs : List ℚ) (E : ℚ) (n : ℕ) (hs : xs.Pairwise (· ≤ ·))
    (hlen : xs.length = n + 1) (hlo : xs.getD 0 0 ≤ E) (hhi : E < xs.getD n 0) :
    1 ≤ ssRight xs E ∧ ssRight xs E ≤ n ∧
    xs.getD (ssRight xs E - 1) 0 ≤ E ∧ E < xs.getD (ssRight xs E) 0 := by
  have char := ssRight_char xs E hs
  have hle : ssRight xs E ≤ xs.length := List.countP_le_length _
  have h1 : 1 ≤ ssRight xs E := by
    have hpos : 0 < xs.countP (fun x => decide (x ≤ E)) :=
      List.countP_pos_iff.mpr ⟨xs.getD 0 0, getD_mem xs 0 (by omega), by simpa using hlo⟩
    unfold ssRight
    omega
  have h2 : ssRight xs E ≤ n := by
    by_contra hcon
    have := char.1 n (by omega)
    linarith
  refine ⟨h1, h2, char.1 (ssRight xs E - 1) (by omega), ?_⟩
  exact not_le.mp (char.2 (ssRight xs E) (le_refl _) (by omega))

/-- C4: in _make_spectrum with thermal broadening disabled, over a
sorted energy grid: exactly the line entries of the element whose rest
wavelength is strictly between min_wavelength and max_wavelength are
selected; each selected line's observed energy is
E0 = hc/wavelength * scale_factor; and, whenever every selected E0 lies
in the grid span (so that a rightmost edge at or below E0 exists), each
selected line's amplitude is added to exactly the one channel whose
index is found by searching bin_edges for the rightmost edge at or
below E0 (the bracketing inequalities characterise that index). -/
theorem c4_line_deposit (p : PreparedApec) (gk : GaussKernel) (element tindex : ℕ)
    (hb : p.thermal_broad = false)
    (hsort : p.ebins.Pairwise (· ≤ ·))
    (hlen : p.ebins.length = p.nchan + 1) :
    (∀ l, l ∈ lineSelect p element tindex
      ↔ (l ∈ p.lineBlocks tindex ∧ l.element = element
          ∧ p.minlam < l.lam ∧ l.lam < p.maxlam)) ∧
    (∀ l, lineE0 p l = hc / l.lam * p.scale_factor) ∧
    lineVec p gk element tindex = depositLines p element tindex ∧
    ((∀ l ∈ lineSelect p element tindex,
        p.ebins.getD 0 0 ≤ lineE0 p l ∧ lineE0 p l < p.ebins.getD p.nchan 0) →
      depositLines p element tindex
        = (lineSelect p element tindex).foldl
            (fun v l => bump v (chanIdx p l) l.epsilon) (zerosQ p.nchan) ∧
      (∀ l ∈ lineSelect p element tindex,
        chanIdx p l < p.nchan ∧
        p.ebins.getD (chanIdx p l) 0 ≤ lineE0 p l ∧
        lineE0 p l < p.ebins.getD (chanIdx p l + 1) 0)) := by
  refine ⟨?_, fun _ => rfl, ?_, ?_⟩
  · intro l
    unfold lineSelect
    rw [List.mem_filter]
    simp [and_assoc]
  · unfold lineVec
    rw [hb]
    simp
  · intro hE
    constructor
    · unfold depositLines
      refine foldl_inv_congr _ _ _ p.nchan ?_ ?_ _ (zerosQ_length _)
      · intro v l hl hv
        obtain ⟨h1, h2, _, _⟩ := ssRight_bracket p.ebins (lineE0 p l) p.nchan hsort
          hlen (hE l hl).1 (hE l hl).2
        have hidx : chanIdx p l < p.nchan := by
          unfold chanIdx
          omega
        have hcast : (ssRight p.ebins (lineE0 p l) : ℤ) - 1 = ((chanIdx p l : ℕ) : ℤ) := by
          unfold chanIdx
          omega
        rw [hcast]
        exact pyBump_coe v (chanIdx p l) l.epsilon (by rw [hv]; exact hidx)
      · intro v l hl hv
        rw [bump_length, hv]
    · intro l hl
      obtain ⟨h1, h2, h3, h4⟩ := ssRight_bracket p.ebins (lineE0 p l) p.nchan hsort
        hlen (hE l hl).1 (hE l hl).2
      refine ⟨by unfold chanIdx; omega, h3, ?_⟩
      have hsucc : chanIdx p l + 1 = ssRight p.ebins (lineE0 p l) := by
        unfold chanIdx
        omega
      rw [hsucc]
      exact h4

/-- C4 witness: the theorem applied at the concrete prepared model
pRight, element hydrogen, table block 3, where the single selected line
has observed energy hc/8 inside the grid span. -/
theorem c4_line_deposit_witness :
    lineVec pRight gkZero 1 3 = depositLines pRight 1 3 ∧
    depositLines pRight 1 3
      = (lineSelect pRight 1 3).foldl
          (fun v l => bump v (chanIdx pRight l) l.epsilon) (zerosQ pRight.nchan) := by
  have h := c4_line_deposit pRight gkZero 1 3 rfl
    (by with_unfolding_all decide) (by with_unfolding_all decide)
  exact ⟨h.2.2.1, (h.2.2.2 (by with_unfolding_all decide)).1⟩

/-! ## C10 -/

/-- C10: with thermal broadening disabled, the channel index
searchsorted(ebins, E0, right) - 1 is nonnegative only when E0 is at
least the lowest bin edge; for E0 below the lowest edge the index is -1
and the Python negative-index deposit adds the amplitude to the last
channel nchan-1 instead of discarding the line.  With a positive
redshift this is reachable: on the concrete prepared model pRed
(scale factor 1/2 < 1) the selected line at wavelength 12 has observed
energy below the lowest edge, and _make_spectrum puts its amplitude 3
into the last of the two channels. -/
theorem c10_negative_index (p : PreparedApec) (E a : ℚ) (v : List ℚ)
    (hsort : p.ebins.Pairwise (· ≤ ·)) (hn : 0 < p.nchan) :
    (0 ≤ (ssRight p.ebins E : ℤ) - 1 → p.ebins.getD 0 0 ≤ E) ∧
    (E < p.ebins.getD 0 0 →
      (ssRight p.ebins E : ℤ) - 1 = -1 ∧
      (v.length = p.nchan → pyBump v (-1) a = bump v (p.nchan - 1) a)) ∧
    (pRed.scale_factor < 1 ∧
     lineSelect pRed 1 3 = [⟨1, 12, 3⟩] ∧
     lineE0 pRed ⟨1, 12, 3⟩ < pRed.ebins.getD 0 0 ∧
     TableApecModel.make_spectrum pRed gkZero 1 3 = [0, 3]) := by
  refine ⟨?_, ?_, ?_⟩
  · intro h0
    have hpos : 0 < p.ebins.countP (fun x => decide (x ≤ E)) := by
      unfold ssRight at h0
      omega
    obtain ⟨x, hx, hpx⟩ := List.countP_pos_iff.mp hpos
    have hxE : x ≤ E := by simpa using hpx
    exact le_trans (sorted_head_le p.ebins hsort x hx) hxE
  · intro hE
    have hz : ssRight p.ebins E = 0 := by
      unfold ssRight
      rw [List.countP_eq_zero]
      intro x hx
      have := sorted_head_le p.ebins hsort x hx
      simp only [decide_eq_true_eq, not_lt]
      intro hcon
      linarith
    refine ⟨by omega, fun hv => ?_⟩
    rw [pyBump_neg_one v a (by omega), hv]
  · with_unfolding_all decide

/-- C10 witness: the theorem applied at the concrete model pRed and a
query energy 1/2 below the lowest edge 1, with the deposit vector
[0, 0]. -/
theorem c10_negative_index_witness :
    (ssRight pRed.ebins (1 / 2) : ℤ) - 1 = -1 ∧
    pyBump [0, 0] (-1) 7 = bump [0, 0] 1 7 := by
  have h := (c10_negative_index pRed (1 / 2) 7 [0, 0]
    (by with_unfolding_all decide)
    (by with_unfolding_all decide)).2.1 (by with_unfolding_all decide)
  exact ⟨h.1, h.2 rfl⟩
